import Mathlib

/-!
Verification of the kubernetes-security scan-orchestration engine spec
against the repository. The backend engine itself (Python Flask) is not
present in the repository snapshot; its data model and operations are
modelled from the specification (each such definition is marked), while
the frontend dashboard code (ClusterMonitoring.js, ResourceMonitoring.js)
is embedded from the source directly.
-/

/-- Modelled from the spec: severity tiers of a vulnerability finding
(the Flask report-builder backend is missing from the snapshot). -/
inductive Severity where
  | CRITICAL
  | HIGH
  | MEDIUM
  | LOW
  | UNKNOWN
deriving DecidableEq, Repr

/-- Modelled from the spec: severity rank used for ordering the cves
output (CRITICAL > HIGH > MEDIUM > LOW > UNKNOWN); lower rank sorts first. -/
def severityRank : Severity → Nat
  | .CRITICAL => 0
  | .HIGH => 1
  | .MEDIUM => 2
  | .LOW => 3
  | .UNKNOWN => 4

/-- Modelled from the spec: bucketing of a raw severity string; any
string that is not one of the four known tiers defaults to UNKNOWN
(the report-builder backend is missing from the snapshot). -/
def parseSeverity (s : String) : Severity :=
  if s = "CRITICAL" then .CRITICAL
  else if s = "HIGH" then .HIGH
  else if s = "MEDIUM" then .MEDIUM
  else if s = "LOW" then .LOW
  else .UNKNOWN

/-- Modelled from the spec: a single vulnerability finding produced by the
correlator (the vulnerability-correlator backend is missing from the
snapshot); severity is kept as the raw feed string. -/
structure VulnerabilityFinding where
  cveId : String
  severity : String
  description : String
  affectedComponent : String
  fixVersion : String
  publishedDate : String
  referenceLink : String
  attackVector : String
  mitigation : String
deriving DecidableEq, Repr

/-- Modelled from the spec: per-pod vulnerability record joining a pod to
its findings (the backend is missing from the snapshot). -/
structure PodVulnerabilityRecord where
  ns : String
  podName : String
  findings : List VulnerabilityFinding
deriving DecidableEq, Repr

/-- Modelled from the spec: a container reference inside a workload. -/
structure ContainerRef where
  containerName : String
  imageReference : String
deriving DecidableEq, Repr

/-- Modelled from the spec: a workload (pod) snapshot listed by the
cluster inventory reader. -/
structure Workload where
  ns : String
  name : String
  containers : List ContainerRef
deriving DecidableEq, Repr

/-- Modelled from the spec: severity histogram of the scan result. -/
structure SeverityHistogram where
  critical : Nat
  high : Nat
  medium : Nat
  low : Nat
  unknown : Nat
deriving DecidableEq, Repr

/-- Look up one bucket of a severity histogram. -/
def histogramGet (h : SeverityHistogram) : Severity → Nat
  | .CRITICAL => h.critical
  | .HIGH => h.high
  | .MEDIUM => h.medium
  | .LOW => h.low
  | .UNKNOWN => h.unknown

/-- Increment one bucket of a severity histogram. -/
def bumpHistogram (sev : Severity) (h : SeverityHistogram) : SeverityHistogram :=
  match sev with
  | .CRITICAL => { h with critical := h.critical + 1 }
  | .HIGH => { h with high := h.high + 1 }
  | .MEDIUM => { h with medium := h.medium + 1 }
  | .LOW => { h with low := h.low + 1 }
  | .UNKNOWN => { h with unknown := h.unknown + 1 }

/-- Total count across all buckets of a severity histogram. -/
def histogramTotal (h : SeverityHistogram) : Nat :=
  h.critical + h.high + h.medium + h.low + h.unknown

/-- Modelled from the spec: the histogram is built by bumping one bucket
per entry of the deduplicated cves list (backend missing from snapshot). -/
def histogramOf : List VulnerabilityFinding → SeverityHistogram
  | [] => ⟨0, 0, 0, 0, 0⟩
  | f :: fs => bumpHistogram (parseSeverity f.severity) (histogramOf fs)

/-- Modelled from the spec: scan summary counters. -/
structure ScanSummary where
  totalPods : Nat
  vulnerablePods : Nat
  totalCVEs : Nat
deriving DecidableEq, Repr

/-- Modelled from the spec: the persisted result of a completed scan run. -/
structure ScanResult where
  summary : ScanSummary
  severityHistogram : SeverityHistogram
  cves : List VulnerabilityFinding
  pods : List PodVulnerabilityRecord
deriving DecidableEq, Repr

/-- Modelled from the spec: concatenation of the findings of every pod
record, in input order (backend missing from snapshot). -/
def allFindings : List PodVulnerabilityRecord → List VulnerabilityFinding
  | [] => []
  | p :: ps => p.findings ++ allFindings ps

/-- Modelled from the spec: deduplication of findings by cveId, keeping
the first occurrence, driven by a seen-id accumulator (backend missing
from snapshot). -/
def dedupByCveId (seen : List String) : List VulnerabilityFinding → List VulnerabilityFinding
  | [] => []
  | f :: fs =>
    if f.cveId ∈ seen then dedupByCveId seen fs
    else f :: dedupByCveId (f.cveId :: seen) fs

/-- Modelled from the spec: the ordering on findings used for the cves
output — severity rank first, then cveId ascending. -/
def cveLE (a b : VulnerabilityFinding) : Bool :=
  let ra := severityRank (parseSeverity a.severity)
  let rb := severityRank (parseSeverity b.severity)
  decide (ra < rb) || (decide (ra = rb) && decide (a.cveId ≤ b.cveId))

/-- Insert a finding into a list sorted by cveLE. -/
def insertCve (f : VulnerabilityFinding) : List VulnerabilityFinding → List VulnerabilityFinding
  | [] => [f]
  | g :: gs => if cveLE f g then f :: g :: gs else g :: insertCve f gs

/-- Modelled from the spec: insertion sort of the deduplicated findings
by severity rank then cveId (backend missing from snapshot). -/
def sortCves : List VulnerabilityFinding → List VulnerabilityFinding
  | [] => []
  | f :: fs => insertCve f (sortCves fs)

/-- Modelled from the spec: count of pod records with a non-empty
findings set, computed by a fold as the backend loop would. -/
def countVulnerable : List PodVulnerabilityRecord → Nat
  | [] => 0
  | p :: ps => (if p.findings.isEmpty then 0 else 1) + countVulnerable ps

/-- Modelled from the spec: the report builder. Deduplicates findings by
cveId across the whole run, orders them by severity rank then cveId,
builds the severity histogram over the deduplicated list, and computes
the summary counters (the Flask report-builder backend is missing from
the snapshot). -/
def build (workloads : List Workload) (podRecords : List PodVulnerabilityRecord) : ScanResult :=
  let cves := sortCves (dedupByCveId [] (allFindings podRecords))
  { summary :=
      { totalPods := podRecords.length
        vulnerablePods := countVulnerable podRecords
        totalCVEs := cves.length }
    severityHistogram := histogramOf cves
    cves := cves
    pods := podRecords }

/-- From src/frontend/src/components/ClusterMonitoring.js line 536: the
dictionary-based severity colour map of the first dashboard variant;
any string that is not an exact key falls through to gray. -/
def getSeverityColor (severity : String) : String :=
  if severity = "CRITICAL" then "#dc3545"
  else if severity = "HIGH" then "#fd7e14"
  else if severity = "MEDIUM" then "#ffc107"
  else if severity = "LOW" then "#198754"
  else "#6c757d"

/-- From src/frontend/src/components/ClusterMonitoring.js line 976: the
dictionary-based severity colour map of the second dashboard variant
(LOW is green #28a745 here); unrecognized strings fall through to gray. -/
def getSeverityColorDash (severity : String) : String :=
  if severity = "CRITICAL" then "#dc3545"
  else if severity = "HIGH" then "#fd7e14"
  else if severity = "MEDIUM" then "#ffc107"
  else if severity = "LOW" then "#28a745"
  else "#6c757d"

/-- From src/frontend/src/components/ClusterMonitoring.js line 1431: the
switch-based severity colour map of the third dashboard variant, which
upper-cases its argument before matching; the default branch is gray. -/
def getSeverityColorSwitch (severity : String) : String :=
  let s := severity.toUpper
  if s = "CRITICAL" then "#dc3545"
  else if s = "HIGH" then "#fd7e14"
  else if s = "MEDIUM" then "#ffc107"
  else if s = "LOW" then "#28a745"
  else "#6c757d"

/-- A client-side polling loop observed in the frontend source: the
component it lives in, the endpoint it fetches, and its setInterval
period in milliseconds. -/
structure PollLoop where
  component : String
  endpoint : String
  intervalMs : Nat
deriving DecidableEq, Repr

/-- The five setInterval-driven fetch loops of the frontend source:
ResourceMonitoring.js line 154 (resources metrics, 5000 ms),
ClusterMonitoring.js line 122 (cluster metrics, 10000 ms),
ClusterMonitoring.js line 1024 (scan status, 1000 ms),
ClusterMonitoring.js line 1058 (scan status while a scan runs, 1000 ms),
ClusterMonitoring.js line 1505 (scan status, 5000 ms). -/
def pollLoops : List PollLoop :=
  [ ⟨"ResourceMonitoring", "/api/resources/metrics", 5000⟩
  , ⟨"ClusterMonitoring", "/api/cluster/metrics", 10000⟩
  , ⟨"ClusterMonitoring.Dashboard", "/api/scan/status", 1000⟩
  , ⟨"ClusterMonitoring.Dashboard.startScan", "/api/scan/status", 1000⟩
  , ⟨"ClusterMonitoring.DashboardLegacy", "/api/scan/status", 5000⟩ ]

/-- From src/frontend/src/components/ClusterMonitoring.js line 1095: the
client-side scan polling safety net fires after 300000 ms. -/
def clientPollTimeoutMs : Nat := 300000

/-- Client-side scan polling state of the startScan flow in
ClusterMonitoring.js: whether the status poll interval is active, whether
a scan is believed to be in progress, and the displayed error. -/
structure ClientScanState where
  pollActive : Bool
  scanning : Bool
  error : Option String
deriving DecidableEq, Repr

/-- From src/frontend/src/components/ClusterMonitoring.js lines 1089 to
1095: when the 300000 ms safety net fires, the poll interval is cleared
unconditionally, and if a scan is still believed to be running the
scanning flag is dropped and a timeout error is shown. -/
def clientOnTimeout (c : ClientScanState) : ClientScanState :=
  { pollActive := false
    scanning := if c.scanning then false else c.scanning
    error := if c.scanning then some "Scan timed out after 5 minutes" else c.error }

/-- Modelled from the spec: status of a scan run (the scan state machine
backend is missing from the snapshot). -/
inductive ScanStatus where
  | PENDING
  | RUNNING
  | COMPLETED
  | FAILED
deriving DecidableEq, Repr

/-- Modelled from the spec: one scan run with its lifecycle fields; the
progress fraction is driven by the count of processed workloads. -/
structure ScanRun where
  id : Nat
  status : ScanStatus
  startedAt : Nat
  completedAt : Option Nat
  totalWorkloads : Nat
  processedWorkloads : Nat
  progressPercent : Nat
  message : String
  result : Option ScanResult
deriving DecidableEq, Repr

/-- Modelled from the spec: engine configuration — the wall-clock
timeout ceiling for a run and the bound on the retained history. -/
structure Config where
  timeoutCeilingMs : Nat
  historyLimit : Nat
deriving DecidableEq, Repr

/-- Modelled from the spec: the engine state — the current (running)
scan if any, the latest completed result, the bounded history of
finished runs, and the id counter. -/
structure EngineState where
  config : Config
  current : Option ScanRun
  latest : Option ScanResult
  history : List ScanRun
  nextId : Nat
deriving DecidableEq, Repr

/-- Modelled from the spec: rejection reasons surfaced to a caller. -/
inductive ScanError where
  | ScanAlreadyRunning
deriving DecidableEq, Repr

/-- Reply returned to the caller of a state-machine operation. -/
inductive Reply where
  | accepted (id : Nat)
  | rejected (e : ScanError)
  | silent
deriving DecidableEq, Repr

/-- Modelled from the spec: coarse-grained progress of a run after a
given number of workloads out of the total have been processed. -/
def progressOf (processed total : Nat) : Nat :=
  if total = 0 then 0 else min 100 (100 * processed / total)

/-- Modelled from the spec: the initial engine state — idle, no result. -/
def initState (cfg : Config) : EngineState :=
  { config := cfg, current := none, latest := none, history := [], nextId := 1 }

/-- Modelled from the spec: start() — rejected with ScanAlreadyRunning
while a run is in flight, otherwise a fresh RUNNING run at progress 0 is
created and its id returned (scan state machine backend missing). -/
def startStep (now total : Nat) (s : EngineState) : EngineState × Reply :=
  match s.current with
  | some _ => (s, .rejected .ScanAlreadyRunning)
  | none =>
    let r : ScanRun :=
      { id := s.nextId, status := .RUNNING, startedAt := now, completedAt := none
        totalWorkloads := total, processedWorkloads := 0, progressPercent := 0
        message := "Scan started", result := none }
    ({ s with current := some r, nextId := s.nextId + 1 }, .accepted s.nextId)

/-- Modelled from the spec: the worker finished one more workload of the
current run; the stored progress is recomputed from the processed count. -/
def workloadStep (s : EngineState) : EngineState × Reply :=
  match s.current with
  | none => (s, .silent)
  | some r =>
    let p := r.processedWorkloads + 1
    ({ s with current := some { r with
        processedWorkloads := p
        progressPercent := progressOf p r.totalWorkloads } }, .silent)

/-- Modelled from the spec: complete(result) — the run becomes COMPLETED
at progress 100, the result is stored as latest, the run is appended to
the bounded history, and the engine returns to idle. -/
def completeStep (now : Nat) (res : ScanResult) (s : EngineState) : EngineState × Reply :=
  match s.current with
  | none => (s, .silent)
  | some r =>
    let r2 : ScanRun := { r with
      status := .COMPLETED, progressPercent := 100
      completedAt := some now, message := "Scan completed", result := some res }
    ({ s with current := none, latest := some res, history := (r2 :: s.history).take s.config.historyLimit }, .silent)

/-- Modelled from the spec: fail(reason) — the run becomes FAILED with
the reason in its message, the previous latest result is left untouched,
and the engine returns to idle. -/
def failStep (reason : String) (s : EngineState) : EngineState × Reply :=
  match s.current with
  | none => (s, .silent)
  | some r =>
    let r2 : ScanRun := { r with status := .FAILED, message := reason }
    ({ s with current := none, history := (r2 :: s.history).take s.config.historyLimit }, .silent)

/-- Modelled from the spec: the forced-failure reason of a timed-out run. -/
def scanTimeoutMessage : String := "Scan timed out: configured ceiling exceeded"

/-- Modelled from the spec: the timeout watchdog — a running scan whose
elapsed wall-clock time exceeds the configured ceiling is forcibly
failed with the timeout reason. -/
def timeoutStep (now : Nat) (s : EngineState) : EngineState × Reply :=
  match s.current with
  | none => (s, .silent)
  | some r =>
    if r.startedAt + s.config.timeoutCeilingMs < now then failStep scanTimeoutMessage s
    else (s, .silent)

/-- Modelled from the spec: the events that drive the engine. -/
inductive Event where
  | startReq (now total : Nat)
  | workloadDone
  | completeReq (now : Nat) (res : ScanResult)
  | failReq (reason : String)
  | timeoutCheck (now : Nat)
deriving DecidableEq, Repr

/-- Dispatch one event to the engine. -/
def stepE (s : EngineState) (e : Event) : EngineState × Reply :=
  match e with
  | .startReq now total => startStep now total s
  | .workloadDone => workloadStep s
  | .completeReq now res => completeStep now res s
  | .failReq reason => failStep reason s
  | .timeoutCheck now => timeoutStep now s

/-- Replay a trace of events against the initial engine state. -/
def replay (cfg : Config) (tr : List Event) : EngineState :=
  tr.foldl (fun s e => (stepE s e).1) (initState cfg)

/-- Does the event store a completed result (the only way latest moves)? -/
def isCompleteEvent : Event → Bool
  | .completeReq _ _ => true
  | _ => false

/-- All runs known to the engine: the current one, then the history. -/
def runsOf (s : EngineState) : List ScanRun :=
  s.current.toList ++ s.history

/-- Is a scan currently in flight? -/
def isRunning (s : EngineState) : Bool :=
  s.current.isSome

/-- Number of runs in RUNNING state known to the engine. -/
def countRunning (s : EngineState) : Nat :=
  ((runsOf s).filter (fun r => r.status == .RUNNING)).length

/-- The stored progress of the run with the given id, if the engine
still knows that run. -/
def progressAt (id : Nat) (s : EngineState) : Option Nat :=
  ((runsOf s).find? (fun r => r.id == id)).map (fun r => r.progressPercent)

/-- Modelled from the spec: getStatus() — a non-blocking snapshot of the
current or last-known run together with the latest completed result. -/
structure StatusView where
  scanStatus : ScanStatus
  progressPercent : Nat
  message : String
  latest_scan : Option ScanResult
deriving DecidableEq, Repr

/-- Modelled from the spec: the getStatus() snapshot accessor (scan
state machine backend missing from the snapshot). -/
def getStatus (s : EngineState) : StatusView :=
  match s.current with
  | some r => ⟨r.status, r.progressPercent, r.message, s.latest⟩
  | none =>
    match s.history with
    | r :: _ => ⟨r.status, r.progressPercent, r.message, s.latest⟩
    | [] => ⟨.PENDING, 0, "No scan has run", s.latest⟩

/-- The cveLE ordering is total. -/
theorem cveLE_total (a b : VulnerabilityFinding) : cveLE a b = true ∨ cveLE b a = true := by
  unfold cveLE
  rcases Nat.lt_trichotomy (severityRank (parseSeverity a.severity))
      (severityRank (parseSeverity b.severity)) with h | h | h
  · left; simp [h]
  · rcases le_total a.cveId b.cveId with hs | hs
    · left; simp [h, hs]
    · right; simp [h.symm, hs]
  · right; simp [h]

/-- Membership in an insertion is membership in the head or the tail. -/
theorem mem_insertCve {x f : VulnerabilityFinding} {l : List VulnerabilityFinding} :
    x ∈ insertCve f l ↔ x = f ∨ x ∈ l := by
  induction l with
  | nil => simp [insertCve]
  | cons g gs ih =>
    by_cases h : cveLE f g = true
    · simp [insertCve, h]
    · simp only [insertCve, h]
      simp [ih]
      tauto

/-- Unfolding of the cveLE ordering into its rank-then-id reading. -/
theorem cveLE_iff {a b : VulnerabilityFinding} : cveLE a b = true ↔
    (severityRank (parseSeverity a.severity) < severityRank (parseSeverity b.severity)
      ∨ (severityRank (parseSeverity a.severity) = severityRank (parseSeverity b.severity)
          ∧ a.cveId ≤ b.cveId)) := by
  simp [cveLE]

/-- The cveLE ordering is transitive. -/
theorem cveLE_trans {a b c : VulnerabilityFinding}
    (h1 : cveLE a b = true) (h2 : cveLE b c = true) : cveLE a c = true := by
  rw [cveLE_iff] at h1 h2 ⊢
  rcases h1 with h1 | ⟨h1, h1s⟩ <;> rcases h2 with h2 | ⟨h2, h2s⟩
  · exact Or.inl (h1.trans h2)
  · exact Or.inl (h2 ▸ h1)
  · exact Or.inl (h1 ▸ h2)
  · exact Or.inr ⟨h1.trans h2, le_trans h1s h2s⟩

/-- Insertion produces a permutation of consing. -/
theorem insertCve_perm (f : VulnerabilityFinding) (l : List VulnerabilityFinding) :
    List.Perm (insertCve f l) (f :: l) := by
  induction l with
  | nil => simp [insertCve]
  | cons g gs ih =>
    by_cases h : cveLE f g = true
    · simp [insertCve, h]
    · simp only [insertCve, if_neg h]
      exact (List.Perm.cons g ih).trans (List.Perm.swap f g gs)

/-- Insertion preserves sortedness with respect to cveLE. -/
theorem pairwise_insertCve {f : VulnerabilityFinding} {l : List VulnerabilityFinding}
    (hl : l.Pairwise (fun a b => cveLE a b = true)) :
    (insertCve f l).Pairwise (fun a b => cveLE a b = true) := by
  induction l with
  | nil => simp [insertCve]
  | cons g gs ih =>
    rcases List.pairwise_cons.mp hl with ⟨hg, hgs⟩
    by_cases h : cveLE f g = true
    · simp only [insertCve, if_pos h]
      refine List.pairwise_cons.mpr ⟨?_, hl⟩
      intro x hx
      rcases List.mem_cons.mp hx with rfl | hx
      · exact h
      · exact cveLE_trans h (hg x hx)
    · simp only [insertCve, if_neg h]
      refine List.pairwise_cons.mpr ⟨?_, ih hgs⟩
      intro x hx
      rcases mem_insertCve.mp hx with rfl | hx
      · rcases cveLE_total g x with hgf | hfg
        · exact hgf
        · exact absurd hfg h
      · exact hg x hx

/-- The sorted cves list is pairwise ordered by cveLE. -/
theorem sortCves_pairwise (l : List VulnerabilityFinding) :
    (sortCves l).Pairwise (fun a b => cveLE a b = true) := by
  induction l with
  | nil => simp [sortCves]
  | cons f fs ih => exact pairwise_insertCve ih

/-- Sorting permutes its input. -/
theorem sortCves_perm (l : List VulnerabilityFinding) :
    List.Perm (sortCves l) l := by
  induction l with
  | nil => simp [sortCves]
  | cons f fs ih =>
    exact (insertCve_perm f (sortCves fs)).trans (List.Perm.cons f ih)

/-- The deduplicated list has pairwise-distinct cveIds, none in seen. -/
theorem dedupByCveId_spec (seen : List String) (l : List VulnerabilityFinding) :
    ((dedupByCveId seen l).map (fun f => f.cveId)).Nodup
    ∧ ∀ g ∈ dedupByCveId seen l, g.cveId ∉ seen := by
  induction l generalizing seen with
  | nil => simp [dedupByCveId]
  | cons f fs ih =>
    by_cases h : f.cveId ∈ seen
    · simpa only [dedupByCveId, if_pos h] using ih seen
    · obtain ⟨ihn, ihs⟩ := ih (f.cveId :: seen)
      simp only [dedupByCveId, if_neg h]
      refine ⟨?_, ?_⟩
      · rw [List.map_cons, List.nodup_cons]
        refine ⟨?_, ihn⟩
        intro hmem
        obtain ⟨g, hg, hge⟩ := List.mem_map.mp hmem
        exact (ihs g hg) (hge ▸ List.mem_cons_self _ _)
      · intro g hg
        rcases List.mem_cons.mp hg with rfl | hg
        · exact h
        · exact fun hs => (ihs g hg) (List.mem_cons_of_mem _ hs)

/-- Every finding whose cveId was not already seen keeps a representative
with the same cveId in the deduplicated list. -/
theorem dedupByCveId_represents {f : VulnerabilityFinding} {l : List VulnerabilityFinding}
    (seen : List String) (hf : f ∈ l) (hs : f.cveId ∉ seen) :
    ∃ g ∈ dedupByCveId seen l, g.cveId = f.cveId := by
  induction l generalizing seen with
  | nil => cases hf
  | cons f2 fs ih =>
    by_cases h : f2.cveId ∈ seen
    · simp only [dedupByCveId, if_pos h]
      rcases List.mem_cons.mp hf with rfl | hf2
      · exact absurd h hs
      · exact ih seen hf2 hs
    · simp only [dedupByCveId, if_neg h]
      by_cases he : f.cveId = f2.cveId
      · exact ⟨f2, List.mem_cons_self _ _, he.symm⟩
      · rcases List.mem_cons.mp hf with rfl | hf2
        · exact absurd rfl he
        · obtain ⟨g, hg, hge⟩ := ih (f2.cveId :: seen) hf2 (by
            intro hmem
            rcases List.mem_cons.mp hmem with hx | hx
            · exact he hx
            · exact hs hx)
          exact ⟨g, List.mem_cons_of_mem _ hg, hge⟩

/-- The cves list produced by the report builder has distinct cveIds. -/
theorem buildCves_nodup (l : List VulnerabilityFinding) :
    ((sortCves (dedupByCveId [] l)).map (fun f => f.cveId)).Nodup := by
  have h1 := (dedupByCveId_spec [] l).1
  have hp := (sortCves_perm (dedupByCveId [] l)).map (fun f => f.cveId)
  exact hp.nodup_iff.mpr h1

/-- C3: build() is deterministic and idempotent — identical input yields
identical output — and the cves sequence is ordered by severity rank
(CRITICAL before HIGH before MEDIUM before LOW before UNKNOWN) then by
cveId ascending, with no two entries sharing a cveId, so ties are broken
deterministically. -/
theorem build_idempotent_ordered (w : List Workload) (prs : List PodVulnerabilityRecord) :
    build w prs = build w prs
    ∧ ((build w prs).cves).Pairwise (fun a b => cveLE a b = true)
    ∧ (((build w prs).cves).map (fun f => f.cveId)).Nodup := by
  refine ⟨rfl, ?_, ?_⟩
  · exact sortCves_pairwise (dedupByCveId [] (allFindings prs))
  · exact buildCves_nodup (allFindings prs)

/-- Bumping a bucket adds one to that bucket and leaves the others. -/
theorem histogramGet_bump (sev sev2 : Severity) (h : SeverityHistogram) :
    histogramGet (bumpHistogram sev h) sev2
      = histogramGet h sev2 + (if sev = sev2 then 1 else 0) := by
  cases sev <;> cases sev2 <;> simp [bumpHistogram, histogramGet]

/-- Each histogram bucket counts the findings bucketed to that severity. -/
theorem histogramGet_histogramOf (sev : Severity) (l : List VulnerabilityFinding) :
    histogramGet (histogramOf l) sev
      = (l.filter (fun f => parseSeverity f.severity == sev)).length := by
  induction l with
  | nil => cases sev <;> rfl
  | cons f fs ih =>
    by_cases h : parseSeverity f.severity = sev
    · simp [histogramOf, histogramGet_bump, ih, List.filter_cons, h]
    · simp [histogramOf, histogramGet_bump, ih, List.filter_cons, h]

/-- Bumping any bucket adds one to the histogram total. -/
theorem histogramTotal_bump (sev : Severity) (h : SeverityHistogram) :
    histogramTotal (bumpHistogram sev h) = histogramTotal h + 1 := by
  cases sev <;> simp [bumpHistogram, histogramTotal] <;> omega

/-- The histogram total equals the length of the counted list. -/
theorem histogramTotal_histogramOf (l : List VulnerabilityFinding) :
    histogramTotal (histogramOf l) = l.length := by
  induction l with
  | nil => rfl
  | cons f fs ih => simp [histogramOf, histogramTotal_bump, ih]

/-- Number of distinct cveId values of a given severity in a cves list. -/
def distinctCveCount (sev : Severity) (cves : List VulnerabilityFinding) : Nat :=
  ((cves.filter (fun f => parseSeverity f.severity == sev)).map (fun f => f.cveId)).dedup.length

/-- C4: in every built scan result each severityHistogram bucket equals
the number of distinct cveId values of that severity in the cves list
(each CVE counted once however many pods reference it), and the bucket
counts sum to the length of cves. -/
theorem histogram_buckets_distinct_and_sum (w : List Workload) (prs : List PodVulnerabilityRecord) :
    (∀ sev : Severity,
        histogramGet (build w prs).severityHistogram sev
          = distinctCveCount sev (build w prs).cves)
    ∧ histogramTotal (build w prs).severityHistogram = (build w prs).cves.length := by
  constructor
  · intro sev
    have hn : (((build w prs).cves).map (fun f => f.cveId)).Nodup :=
      buildCves_nodup (allFindings prs)
    have hsub := List.Sublist.map (fun f => f.cveId)
      (@List.filter_sublist VulnerabilityFinding
        (fun f => parseSeverity f.severity == sev) ((build w prs).cves))
    have hn2 := List.Nodup.sublist hsub hn
    unfold distinctCveCount
    rw [List.dedup_eq_self.mpr hn2, List.length_map]
    exact histogramGet_histogramOf sev (build w prs).cves
  · exact histogramTotal_histogramOf (build w prs).cves

/-- The fold computing vulnerablePods counts the records with findings. -/
theorem countVulnerable_eq (prs : List PodVulnerabilityRecord) :
    countVulnerable prs = (prs.filter (fun p => !p.findings.isEmpty)).length := by
  induction prs with
  | nil => rfl
  | cons p ps ih =>
    by_cases h : p.findings.isEmpty
    · simp [countVulnerable, List.filter_cons, h, ih]
    · simp [countVulnerable, List.filter_cons, h, ih]
      omega

/-- Vulnerable and secure records partition the input records. -/
theorem countVulnerable_partition (prs : List PodVulnerabilityRecord) :
    countVulnerable prs + (prs.filter (fun p => p.findings.isEmpty)).length = prs.length := by
  induction prs with
  | nil => rfl
  | cons p ps ih =>
    by_cases h : p.findings.isEmpty
    · simp [countVulnerable, List.filter_cons, h]
      omega
    · simp [countVulnerable, List.filter_cons, h]
      omega

/-- C5: for every input set of pod records, summary.vulnerablePods equals
the count of PodVulnerabilityRecord entries with a non-empty findings
set, and the remaining pods — those with empty findings — make up the
rest of summary.totalPods. -/
theorem vulnerable_pods_counted (w : List Workload) (prs : List PodVulnerabilityRecord) :
    (build w prs).summary.vulnerablePods
        = (prs.filter (fun p => !p.findings.isEmpty)).length
    ∧ (build w prs).summary.vulnerablePods
        + (prs.filter (fun p => p.findings.isEmpty)).length
        = (build w prs).summary.totalPods := by
  refine ⟨countVulnerable_eq prs, ?_⟩
  exact countVulnerable_partition prs

/-- C7: a finding whose severity string is none of CRITICAL, HIGH,
MEDIUM, LOW is bucketed as UNKNOWN by the report builder and is never
dropped — its cveId keeps a representative in the built cves list — and
each severity-rendering function of the dashboard maps a string it does
not recognize to the default gray colour rather than failing (the
switch-shaped variant recognizes severities case-insensitively, so its
condition is on the upper-cased string). -/
theorem unknown_severity_defaults (s : String)
    (h : ¬ (s = "CRITICAL" ∨ s = "HIGH" ∨ s = "MEDIUM" ∨ s = "LOW")) :
    parseSeverity s = Severity.UNKNOWN
    ∧ getSeverityColor s = "#6c757d"
    ∧ getSeverityColorDash s = "#6c757d"
    ∧ (¬ (s.toUpper = "CRITICAL" ∨ s.toUpper = "HIGH"
          ∨ s.toUpper = "MEDIUM" ∨ s.toUpper = "LOW") →
        getSeverityColorSwitch s = "#6c757d")
    ∧ (∀ (w : List Workload) (prs : List PodVulnerabilityRecord)
          (f : VulnerabilityFinding), f ∈ allFindings prs →
        ∃ g, g ∈ (build w prs).cves ∧ g.cveId = f.cveId) := by
  push_neg at h
  obtain ⟨h1, h2, h3, h4⟩ := h
  refine ⟨?_, ?_, ?_, ?_, ?_⟩
  · simp [parseSeverity, h1, h2, h3, h4]
  · simp [getSeverityColor, h1, h2, h3, h4]
  · simp [getSeverityColorDash, h1, h2, h3, h4]
  · intro hu
    push_neg at hu
    obtain ⟨u1, u2, u3, u4⟩ := hu
    simp [getSeverityColorSwitch, u1, u2, u3, u4]
  · intro w prs f hf
    obtain ⟨g, hg, hge⟩ :=
      dedupByCveId_represents [] hf (by simp)
    refine ⟨g, ?_, hge⟩
    show g ∈ sortCves (dedupByCveId [] (allFindings prs))
    exact ((sortCves_perm (dedupByCveId [] (allFindings prs))).mem_iff).mpr hg

/-- Concrete check of the UNKNOWN default: the severity string BOGUS is
not a known tier; it is bucketed as UNKNOWN and rendered gray by every
dashboard variant. -/
theorem unknown_severity_defaults_check :
    parseSeverity "BOGUS" = Severity.UNKNOWN
    ∧ getSeverityColor "BOGUS" = "#6c757d"
    ∧ getSeverityColorDash "BOGUS" = "#6c757d" :=
  ⟨(unknown_severity_defaults "BOGUS" (by decide)).1,
   (unknown_severity_defaults "BOGUS" (by decide)).2.1,
   (unknown_severity_defaults "BOGUS" (by decide)).2.2.1⟩

/-- Coarse-grained progress never exceeds 100. -/
theorem progressOf_le (p t : Nat) : progressOf p t ≤ 100 := by
  unfold progressOf
  split
  · omega
  · exact min_le_left _ _

/-- Coarse-grained progress is monotone in the processed count. -/
theorem progressOf_mono {p q : Nat} (t : Nat) (h : p ≤ q) :
    progressOf p t ≤ progressOf q t := by
  unfold progressOf
  split
  · omega
  · exact min_le_min le_rfl (Nat.div_le_div_right (Nat.mul_le_mul_left 100 h))

/-- A run starts at progress zero. -/
theorem progressOf_zero (t : Nat) : progressOf 0 t = 0 := by
  unfold progressOf
  split
  · rfl
  · simp

/-- The inductive invariant of the scan state machine: the current run,
if any, is RUNNING with progress derived from its processed count; no
finished run in the history is RUNNING; every known run has progress at
most 100, progress exactly 100 when COMPLETED, and an id below the
engine's id counter. -/
def EngineInv (s : EngineState) : Prop :=
  (∀ r, s.current = some r →
      r.status = ScanStatus.RUNNING
      ∧ r.progressPercent = progressOf r.processedWorkloads r.totalWorkloads)
  ∧ (∀ r ∈ s.history, r.status ≠ ScanStatus.RUNNING)
  ∧ (∀ r ∈ runsOf s, r.progressPercent ≤ 100
      ∧ (r.status = ScanStatus.COMPLETED → r.progressPercent = 100)
      ∧ r.id < s.nextId)

/-- The initial engine state satisfies the invariant. -/
theorem inv_init (cfg : Config) : EngineInv (initState cfg) := by
  refine ⟨?_, ?_, ?_⟩ <;> simp [initState, runsOf]

/-- start() preserves the invariant. -/
theorem inv_startStep (now total : Nat) (s : EngineState) (h : EngineInv s) :
    EngineInv (startStep now total s).1 := by
  obtain ⟨h1, h2, h3⟩ := h
  cases hc : s.current with
  | some r => simpa [startStep, hc] using ⟨h1, h2, h3⟩
  | none =>
    simp only [startStep, hc]
    refine ⟨?_, ?_, ?_⟩
    · intro r hr
      simp only [Option.some.injEq] at hr
      subst hr
      exact ⟨rfl, (progressOf_zero total).symm⟩
    · exact h2
    · intro r hr
      simp only [runsOf, Option.toList_some, List.cons_append, List.nil_append] at hr
      rcases List.mem_cons.mp hr with rfl | hr
      · refine ⟨Nat.zero_le 100, ?_, Nat.lt_succ_self _⟩
        intro hco
        cases hco
      · have := h3 r (by simp [runsOf, hc, hr])
        exact ⟨this.1, this.2.1, Nat.lt_succ_of_lt this.2.2⟩

/-- Processing one more workload preserves the invariant. -/
theorem inv_workloadStep (s : EngineState) (h : EngineInv s) :
    EngineInv (workloadStep s).1 := by
  obtain ⟨h1, h2, h3⟩ := h
  cases hc : s.current with
  | none => simpa [workloadStep, hc] using ⟨h1, h2, h3⟩
  | some r =>
    have hr := h1 r hc
    have hr3 := h3 r (by simp [runsOf, hc])
    simp only [workloadStep, hc]
    refine ⟨?_, ?_, ?_⟩
    · intro r2 hr2
      simp only [Option.some.injEq] at hr2
      subst hr2
      exact ⟨hr.1, rfl⟩
    · exact h2
    · intro r2 hr2
      simp only [runsOf, Option.toList_some, List.cons_append, List.nil_append] at hr2
      rcases List.mem_cons.mp hr2 with rfl | hr2
      · refine ⟨progressOf_le _ _, ?_, ?_⟩
        · intro hco
          rw [hr.1] at hco
          cases hco
        · simpa using hr3.2.2
      · have := h3 r2 (by simp [runsOf, hc, hr2])
        exact ⟨this.1, this.2.1, this.2.2⟩

/-- complete(result) preserves the invariant. -/
theorem inv_completeStep (now : Nat) (res : ScanResult) (s : EngineState) (h : EngineInv s) :
    EngineInv (completeStep now res s).1 := by
  obtain ⟨h1, h2, h3⟩ := h
  cases hc : s.current with
  | none => simpa [completeStep, hc] using ⟨h1, h2, h3⟩
  | some r =>
    have hr3 := h3 r (by simp [runsOf, hc])
    simp only [completeStep, hc]
    refine ⟨?_, ?_, ?_⟩
    · intro r2 hr2
      simp at hr2
    · intro r2 hr2
      have hr2b := List.take_subset _ _ hr2
      rcases List.mem_cons.mp hr2b with rfl | hr2b
      · simp
      · exact h2 r2 hr2b
    · intro r2 hr2
      simp only [runsOf, Option.toList_none, List.nil_append] at hr2
      have hr2b := List.take_subset _ _ hr2
      rcases List.mem_cons.mp hr2b with rfl | hr2b
      · exact ⟨le_rfl, fun _ => rfl, hr3.2.2⟩
      · have := h3 r2 (by simp [runsOf, hc, hr2b])
        exact ⟨this.1, this.2.1, this.2.2⟩

/-- fail(reason) preserves the invariant. -/
theorem inv_failStep (reason : String) (s : EngineState) (h : EngineInv s) :
    EngineInv (failStep reason s).1 := by
  obtain ⟨h1, h2, h3⟩ := h
  cases hc : s.current with
  | none => simpa [failStep, hc] using ⟨h1, h2, h3⟩
  | some r =>
    have hr3 := h3 r (by simp [runsOf, hc])
    simp only [failStep, hc]
    refine ⟨?_, ?_, ?_⟩
    · intro r2 hr2
      simp at hr2
    · intro r2 hr2
      have hr2b := List.take_subset _ _ hr2
      rcases List.mem_cons.mp hr2b with rfl | hr2b
      · simp
      · exact h2 r2 hr2b
    · intro r2 hr2
      simp only [runsOf, Option.toList_none, List.nil_append] at hr2
      have hr2b := List.take_subset _ _ hr2
      rcases List.mem_cons.mp hr2b with rfl | hr2b
      · refine ⟨hr3.1, ?_, hr3.2.2⟩
        intro hco
        cases hco
      · have := h3 r2 (by simp [runsOf, hc, hr2b])
        exact ⟨this.1, this.2.1, this.2.2⟩

/-- The timeout watchdog preserves the invariant. -/
theorem inv_timeoutStep (now : Nat) (s : EngineState) (h : EngineInv s) :
    EngineInv (timeoutStep now s).1 := by
  cases hc : s.current with
  | none => simpa [timeoutStep, hc] using h
  | some r =>
    simp only [timeoutStep, hc]
    split
    · exact inv_failStep scanTimeoutMessage s h
    · exact h

/-- Every event preserves the invariant. -/
theorem inv_stepE (s : EngineState) (e : Event) (h : EngineInv s) : EngineInv (stepE s e).1 := by
  cases e with
  | startReq now total => exact inv_startStep now total s h
  | workloadDone => exact inv_workloadStep s h
  | completeReq now res => exact inv_completeStep now res s h
  | failReq reason => exact inv_failStep reason s h
  | timeoutCheck now => exact inv_timeoutStep now s h

/-- The invariant holds after replaying any trace from any state that
satisfies it. -/
theorem inv_foldl (tr : List Event) :
    ∀ s : EngineState, EngineInv s → EngineInv (tr.foldl (fun s e => (stepE s e).1) s) := by
  induction tr with
  | nil => intro s h; exact h
  | cons e es ih =>
    intro s h
    exact ih _ (inv_stepE s e h)

/-- The invariant holds in every reachable engine state. -/
theorem inv_replay (cfg : Config) (tr : List Event) : EngineInv (replay cfg tr) :=
  inv_foldl tr (initState cfg) (inv_init cfg)

/-- Finding an element in a truncated list finds it in the full list. -/
theorem find?_take_some {p : ScanRun → Bool} {x : ScanRun} :
    ∀ (n : Nat) (l : List ScanRun), (l.take n).find? p = some x → l.find? p = some x := by
  intro n l
  induction l generalizing n with
  | nil => intro h; simp at h
  | cons a as ih =>
    intro h
    cases n with
    | zero => simp at h
    | succ n =>
      rw [List.take_succ_cons] at h
      by_cases hp : p a = true
      · rw [List.find?_cons_of_pos _ hp] at h ⊢
        exact h
      · rw [List.find?_cons_of_neg _ (by simpa using hp)] at h ⊢
        exact ih n h

/-- Progress of a tracked run does not decrease across fail(reason). -/
theorem progressAt_failStep (s : EngineState) (reason : String)
    (id p1 p2 : Nat) (h1 : progressAt id s = some p1)
    (h2 : progressAt id (failStep reason s).1 = some p2) : p1 ≤ p2 := by
  cases hc : s.current with
  | none =>
    simp only [failStep, hc] at h2
    rw [h1] at h2
    exact le_of_eq (Option.some.injEq _ _ ▸ h2)
  | some r =>
    simp only [failStep, hc] at h2
    unfold progressAt runsOf at h1 h2
    simp only [hc, Option.toList_some, List.cons_append, List.nil_append] at h1
    simp only [Option.toList_none, List.nil_append] at h2
    obtain ⟨x, hx, hxp⟩ := Option.map_eq_some'.mp h2
    obtain ⟨y, hy, hyp⟩ := Option.map_eq_some'.mp h1
    have hx2 := find?_take_some _ _ hx
    by_cases hid : (r.id == id) = true
    · simp only [List.find?_cons, hid] at hy hx2
      cases hy
      cases hx2
      rw [← hyp, ← hxp]
    · simp only [Bool.not_eq_true] at hid
      simp only [List.find?_cons, hid] at hy hx2
      rw [hy] at hx2
      cases hx2
      rw [← hyp, ← hxp]

/-- Progress of a tracked run does not decrease across complete(result);
it reaches exactly 100 there. -/
theorem progressAt_completeStep (s : EngineState) (now : Nat) (res : ScanResult)
    (h : EngineInv s) (id p1 p2 : Nat) (h1 : progressAt id s = some p1)
    (h2 : progressAt id (completeStep now res s).1 = some p2) : p1 ≤ p2 := by
  obtain ⟨hI1, hI2, hI3⟩ := h
  cases hc : s.current with
  | none =>
    simp only [completeStep, hc] at h2
    rw [h1] at h2
    exact le_of_eq (Option.some.injEq _ _ ▸ h2)
  | some r =>
    have hr3 := hI3 r (by simp [runsOf, hc])
    simp only [completeStep, hc] at h2
    unfold progressAt runsOf at h1 h2
    simp only [hc, Option.toList_some, List.cons_append, List.nil_append] at h1
    simp only [Option.toList_none, List.nil_append] at h2
    obtain ⟨x, hx, hxp⟩ := Option.map_eq_some'.mp h2
    obtain ⟨y, hy, hyp⟩ := Option.map_eq_some'.mp h1
    have hx2 := find?_take_some _ _ hx
    by_cases hid : (r.id == id) = true
    · simp only [List.find?_cons, hid] at hy hx2
      cases hy
      cases hx2
      rw [← hyp, ← hxp]
      exact hr3.1
    · simp only [Bool.not_eq_true] at hid
      simp only [List.find?_cons, hid] at hy hx2
      rw [hy] at hx2
      cases hx2
      rw [← hyp, ← hxp]

/-- Progress of a tracked run does not decrease across any single event. -/
theorem progressAt_stepE_mono (s : EngineState) (e : Event) (h : EngineInv s)
    (id p1 p2 : Nat) (h1 : progressAt id s = some p1)
    (h2 : progressAt id (stepE s e).1 = some p2) : p1 ≤ p2 := by
  obtain ⟨hI1, hI2, hI3⟩ := h
  cases e with
  | startReq now total =>
    cases hc : s.current with
    | some r =>
      simp only [stepE, startStep, hc] at h2
      rw [h1] at h2
      exact le_of_eq (Option.some.injEq _ _ ▸ h2)
    | none =>
      simp only [stepE, startStep, hc] at h2
      unfold progressAt runsOf at h1 h2
      simp only [hc, Option.toList_none, List.nil_append] at h1
      simp only [Option.toList_some, List.cons_append, List.nil_append] at h2
      obtain ⟨x, hx, hxp⟩ := Option.map_eq_some'.mp h2
      obtain ⟨y, hy, hyp⟩ := Option.map_eq_some'.mp h1
      by_cases hid : (s.nextId == id) = true
      · have hyid := List.find?_some hy
        have hymem := List.mem_of_find?_eq_some hy
        have := (hI3 y (by simp [runsOf, hc, hymem])).2.2
        rw [Nat.beq_eq_true_eq] at hid hyid
        omega
      · simp only [Bool.not_eq_true] at hid
        simp only [List.find?_cons, hid] at hx
        rw [hy] at hx
        cases hx
        rw [← hyp, ← hxp]
  | workloadDone =>
    cases hc : s.current with
    | none =>
      simp only [stepE, workloadStep, hc] at h2
      rw [h1] at h2
      exact le_of_eq (Option.some.injEq _ _ ▸ h2)
    | some r =>
      have hrP := (hI1 r hc).2
      simp only [stepE, workloadStep, hc] at h2
      unfold progressAt runsOf at h1 h2
      simp only [hc, Option.toList_some, List.cons_append, List.nil_append] at h1 h2
      obtain ⟨x, hx, hxp⟩ := Option.map_eq_some'.mp h2
      obtain ⟨y, hy, hyp⟩ := Option.map_eq_some'.mp h1
      by_cases hid : (r.id == id) = true
      · simp only [List.find?_cons, hid] at hy hx
        cases hy
        cases hx
        rw [← hyp, ← hxp]
        calc r.progressPercent
            = progressOf r.processedWorkloads r.totalWorkloads := hrP
          _ ≤ progressOf (r.processedWorkloads + 1) r.totalWorkloads :=
              progressOf_mono _ (Nat.le_succ _)
      · simp only [Bool.not_eq_true] at hid
        simp only [List.find?_cons, hid] at hy hx
        rw [hy] at hx
        cases hx
        rw [← hyp, ← hxp]
  | completeReq now res =>
    exact progressAt_completeStep s now res ⟨hI1, hI2, hI3⟩ id p1 p2 h1 h2
  | failReq reason =>
    exact progressAt_failStep s reason id p1 p2 h1 h2
  | timeoutCheck now =>
    cases hc : s.current with
    | none =>
      simp only [stepE, timeoutStep, hc] at h2
      rw [h1] at h2
      exact le_of_eq (Option.some.injEq _ _ ▸ h2)
    | some r =>
      simp only [stepE, timeoutStep, hc] at h2
      by_cases ht : r.startedAt + s.config.timeoutCeilingMs < now
      · rw [if_pos ht] at h2
        exact progressAt_failStep s scanTimeoutMessage id p1 p2 h1 h2
      · rw [if_neg ht] at h2
        rw [h1] at h2
        exact le_of_eq (Option.some.injEq _ _ ▸ h2)

/-- No event changes the engine configuration. -/
theorem config_stepE (s : EngineState) (e : Event) : (stepE s e).1.config = s.config := by
  cases e with
  | startReq now total => cases hc : s.current <;> simp [stepE, startStep, hc]
  | workloadDone => cases hc : s.current <;> simp [stepE, workloadStep, hc]
  | completeReq now res => cases hc : s.current <;> simp [stepE, completeStep, hc]
  | failReq reason => cases hc : s.current <;> simp [stepE, failStep, hc]
  | timeoutCheck now =>
    cases hc : s.current with
    | none => simp [stepE, timeoutStep, hc]
    | some r =>
      simp only [stepE, timeoutStep, hc]
      split
      · simp [failStep, hc]
      · rfl

/-- The replayed engine keeps the configuration it started with. -/
theorem config_replay (cfg : Config) (tr : List Event) : (replay cfg tr).config = cfg := by
  unfold replay
  induction tr using List.reverseRecOn with
  | nil => rfl
  | append_singleton es e ih =>
    rw [List.foldl_append, List.foldl_cons, List.foldl_nil, config_stepE]
    exact ih

/-- The invariant bounds the number of RUNNING runs by one. -/
theorem countRunning_le_one (s : EngineState) (h : EngineInv s) : countRunning s ≤ 1 := by
  obtain ⟨h1, h2, h3⟩ := h
  unfold countRunning runsOf
  have hhist : s.history.filter (fun r => r.status == ScanStatus.RUNNING) = [] := by
    rw [List.filter_eq_nil_iff]
    intro r hr
    simpa using h2 r hr
  cases hc : s.current with
  | none => simp [hhist]
  | some r =>
    simp only [Option.toList_some, List.cons_append, List.nil_append, List.filter_cons]
    by_cases hs : (r.status == ScanStatus.RUNNING) = true
    · simp [hs, hhist]
    · simp only [Bool.not_eq_true] at hs
      simp [hs, hhist]

/-- Replaying one more event steps the replayed state once. -/
theorem replay_snoc (cfg : Config) (tr : List Event) (e : Event) :
    replay cfg (tr ++ [e]) = (stepE (replay cfg tr) e).1 := by
  unfold replay
  rw [List.foldl_append]
  rfl

/-- Any event other than complete(result) leaves latest untouched. -/
theorem latest_stepE (s : EngineState) (e : Event) (h : isCompleteEvent e = false) :
    (stepE s e).1.latest = s.latest := by
  cases e with
  | startReq now total => cases hc : s.current <;> simp [stepE, startStep, hc]
  | workloadDone => cases hc : s.current <;> simp [stepE, workloadStep, hc]
  | completeReq now res => simp [isCompleteEvent] at h
  | failReq reason => cases hc : s.current <;> simp [stepE, failStep, hc]
  | timeoutCheck now =>
    cases hc : s.current with
    | none => simp [stepE, timeoutStep, hc]
    | some r =>
      simp only [stepE, timeoutStep, hc]
      split
      · simp [failStep, hc]
      · rfl

/-- A trace without complete(result) events leaves latest untouched. -/
theorem latest_foldl (tr2 : List Event) :
    ∀ s : EngineState, (∀ e ∈ tr2, isCompleteEvent e = false) →
      (tr2.foldl (fun s e => (stepE s e).1) s).latest = s.latest := by
  induction tr2 with
  | nil => intro s _; rfl
  | cons e es ih =>
    intro s h
    rw [List.foldl_cons]
    rw [ih _ (fun e2 he2 => h e2 (List.mem_cons_of_mem _ he2))]
    exact latest_stepE s e (h e (List.mem_cons_self _ _))

/-- The getStatus snapshot always forwards the stored latest result. -/
theorem getStatus_latest (s : EngineState) : (getStatus s).latest_scan = s.latest := by
  cases hc : s.current with
  | some r => simp [getStatus, hc]
  | none =>
    cases hh : s.history with
    | nil => simp [getStatus, hc, hh]
    | cons r rs => simp [getStatus, hc, hh]

/-- C1: in every reachable engine state at most one ScanRun is RUNNING;
while a run is RUNNING every start() call is rejected with
ScanAlreadyRunning and leaves the state unchanged (no queueing); once no
run is RUNNING — as after complete() or fail(), which both clear the
current run — the next start() call succeeds and puts a run in flight. -/
theorem start_exclusive (cfg : Config) (tr : List Event) (now total : Nat) :
    countRunning (replay cfg tr) ≤ 1
    ∧ (isRunning (replay cfg tr) = true →
        startStep now total (replay cfg tr)
          = (replay cfg tr, Reply.rejected ScanError.ScanAlreadyRunning))
    ∧ (isRunning (replay cfg tr) = false →
        (startStep now total (replay cfg tr)).2
            = Reply.accepted (replay cfg tr).nextId
        ∧ isRunning (startStep now total (replay cfg tr)).1 = true)
    ∧ (∀ res : ScanResult, isRunning (completeStep now res (replay cfg tr)).1 = false)
    ∧ (∀ reason : String, isRunning (failStep reason (replay cfg tr)).1 = false) := by
  refine ⟨countRunning_le_one _ (inv_replay cfg tr), ?_, ?_, ?_, ?_⟩
  · intro h
    cases hc : (replay cfg tr).current with
    | none => unfold isRunning at h; rw [hc] at h; simp at h
    | some r => simp [startStep, hc]
  · intro h
    cases hc : (replay cfg tr).current with
    | some r => unfold isRunning at h; rw [hc] at h; simp at h
    | none => exact ⟨by simp [startStep, hc], by simp [startStep, hc, isRunning]⟩
  · intro res
    cases hc : (replay cfg tr).current <;> simp [completeStep, hc, isRunning]
  · intro reason
    cases hc : (replay cfg tr).current <;> simp [failStep, hc, isRunning]

/-- Concrete check of start() exclusion: after one accepted start the
engine has one RUNNING run and a second start is rejected with
ScanAlreadyRunning, leaving the state unchanged. -/
theorem start_exclusive_check :
    countRunning (replay ⟨60000, 10⟩ [Event.startReq 0 3]) ≤ 1
    ∧ startStep 5 4 (replay ⟨60000, 10⟩ [Event.startReq 0 3])
        = (replay ⟨60000, 10⟩ [Event.startReq 0 3],
            Reply.rejected ScanError.ScanAlreadyRunning) :=
  ⟨(start_exclusive ⟨60000, 10⟩ [Event.startReq 0 3] 5 4).1,
   (start_exclusive ⟨60000, 10⟩ [Event.startReq 0 3] 5 4).2.1 (by decide)⟩

/-- C2: within a run progressPercent is monotonically non-decreasing —
two successive observations of the same run satisfy the second at least
the first — progress always stays in the range zero to 100, a freshly
started run observes progress zero, and a COMPLETED run observes
progress exactly 100. -/
theorem progress_monotone_in_run (cfg : Config) (tr : List Event) :
    (∀ r, r ∈ runsOf (replay cfg tr) →
        r.progressPercent ≤ 100
        ∧ (r.status = ScanStatus.COMPLETED → r.progressPercent = 100))
    ∧ (∀ (e : Event) (id p1 p2 : Nat),
        progressAt id (replay cfg tr) = some p1 →
        progressAt id (replay cfg (tr ++ [e])) = some p2 → p1 ≤ p2)
    ∧ (∀ now total, isRunning (replay cfg tr) = false →
        progressAt (replay cfg tr).nextId
          (startStep now total (replay cfg tr)).1 = some 0) := by
  refine ⟨?_, ?_, ?_⟩
  · intro r hr
    have := (inv_replay cfg tr).2.2 r hr
    exact ⟨this.1, this.2.1⟩
  · intro e id p1 p2 hp1 hp2
    rw [replay_snoc] at hp2
    exact progressAt_stepE_mono _ e (inv_replay cfg tr) id p1 p2 hp1 hp2
  · intro now total h
    cases hc : (replay cfg tr).current with
    | some r => unfold isRunning at h; rw [hc] at h; simp at h
    | none => simp [startStep, hc, progressAt, runsOf, List.find?_cons]

/-- Concrete check of progress monotonicity: with three workloads the
tracked run's progress moves from 33 to 66 across one more processed
workload, a non-decreasing step. -/
theorem progress_monotone_check :
    progressAt 1 (replay ⟨60000, 10⟩ [Event.startReq 0 3, Event.workloadDone]) = some 33
    ∧ progressAt 1 (replay ⟨60000, 10⟩
        ([Event.startReq 0 3, Event.workloadDone] ++ [Event.workloadDone])) = some 66
    ∧ (33 : Nat) ≤ 66 :=
  ⟨by decide, by decide,
   (progress_monotone_in_run ⟨60000, 10⟩ [Event.startReq 0 3, Event.workloadDone]).2.1
     Event.workloadDone 1 33 66 (by decide) (by decide)⟩

/-- C6: fail(reason) is atomic with respect to prior results — it leaves
the stored latest completed result untouched byte for byte, getStatus()
keeps returning that result as latest_scan, the failed run is recorded
as FAILED with the reason in its message, and latest stays unchanged
across any continuation of the trace that contains no complete() event. -/
theorem fail_preserves_latest (cfg : Config) (tr : List Event) (reason : String) :
    (failStep reason (replay cfg tr)).1.latest = (replay cfg tr).latest
    ∧ (getStatus (failStep reason (replay cfg tr)).1).latest_scan
        = (getStatus (replay cfg tr)).latest_scan
    ∧ (∀ r, (replay cfg tr).current = some r →
        (failStep reason (replay cfg tr)).1.current = none
        ∧ (failStep reason (replay cfg tr)).1.history
            = ({ r with status := ScanStatus.FAILED, message := reason }
                :: (replay cfg tr).history).take cfg.historyLimit)
    ∧ (∀ tr2 : List Event, (∀ e ∈ tr2, isCompleteEvent e = false) →
        (replay cfg (tr ++ tr2)).latest = (replay cfg tr).latest) := by
  have hlat : (failStep reason (replay cfg tr)).1.latest = (replay cfg tr).latest := by
    cases hc : (replay cfg tr).current <;> simp [failStep, hc]
  refine ⟨hlat, ?_, ?_, ?_⟩
  · rw [getStatus_latest, getStatus_latest]
    exact hlat
  · intro r hr
    refine ⟨by simp [failStep, hr], ?_⟩
    simp [failStep, hr, config_replay]
  · intro tr2 h
    unfold replay
    rw [List.foldl_append]
    exact latest_foldl tr2 _ h

/-- Concrete check of fail() atomicity: after a completed scan stored an
empty result and a second scan started, failing the second run keeps the
stored latest result — and the getStatus latest_scan field — unchanged. -/
theorem fail_preserves_latest_check :
    (failStep "ClusterUnreachable" (replay ⟨60000, 10⟩
        [Event.startReq 0 2, Event.completeReq 9 ⟨⟨0, 0, 0⟩, ⟨0, 0, 0, 0, 0⟩, [], []⟩,
          Event.startReq 10 5])).1.latest
      = (replay ⟨60000, 10⟩
        [Event.startReq 0 2, Event.completeReq 9 ⟨⟨0, 0, 0⟩, ⟨0, 0, 0, 0, 0⟩, [], []⟩,
          Event.startReq 10 5]).latest
    ∧ (replay ⟨60000, 10⟩
        [Event.startReq 0 2, Event.completeReq 9 ⟨⟨0, 0, 0⟩, ⟨0, 0, 0, 0, 0⟩, [], []⟩,
          Event.startReq 10 5]).latest
      = some ⟨⟨0, 0, 0⟩, ⟨0, 0, 0, 0, 0⟩, [], []⟩ :=
  ⟨(fail_preserves_latest ⟨60000, 10⟩
      [Event.startReq 0 2, Event.completeReq 9 ⟨⟨0, 0, 0⟩, ⟨0, 0, 0, 0, 0⟩, [], []⟩,
        Event.startReq 10 5] "ClusterUnreachable").1,
   by decide⟩

/-- C8: a running scan whose elapsed wall-clock time exceeds the
configured ceiling is forcibly transitioned to FAILED with the timeout
reason by the watchdog, after which start() is accepted again; the
matching client-side safety net constant is 300000 ms (5 minutes), and
when it fires the poll interval is cleared and, if a scan was still
believed running, a timeout error is reported. -/
theorem timeout_frees_engine (cfg : Config) (tr : List Event) (now : Nat) (r : ScanRun)
    (h1 : (replay cfg tr).current = some r)
    (h2 : r.startedAt + cfg.timeoutCeilingMs < now) :
    (timeoutStep now (replay cfg tr)).1.current = none
    ∧ (timeoutStep now (replay cfg tr)).1.history
        = ({ r with status := ScanStatus.FAILED, message := scanTimeoutMessage }
            :: (replay cfg tr).history).take cfg.historyLimit
    ∧ (∀ n2 t2 : Nat,
        (startStep n2 t2 (timeoutStep now (replay cfg tr)).1).2
          = Reply.accepted (timeoutStep now (replay cfg tr)).1.nextId
        ∧ isRunning (startStep n2 t2 (timeoutStep now (replay cfg tr)).1).1 = true)
    ∧ clientPollTimeoutMs = 300000
    ∧ (∀ c : ClientScanState,
        (clientOnTimeout c).pollActive = false
        ∧ (c.scanning = true →
            (clientOnTimeout c).scanning = false
            ∧ (clientOnTimeout c).error = some "Scan timed out after 5 minutes")) := by
  have hcfg : (replay cfg tr).config = cfg := config_replay cfg tr
  have hfire : (timeoutStep now (replay cfg tr)).1
      = (failStep scanTimeoutMessage (replay cfg tr)).1 := by
    simp only [timeoutStep, h1]
    rw [hcfg, if_pos h2]
  refine ⟨?_, ?_, ?_, rfl, ?_⟩
  · rw [hfire]
    simp [failStep, h1]
  · rw [hfire]
    simp [failStep, h1, hcfg]
  · intro n2 t2
    have hnone : (timeoutStep now (replay cfg tr)).1.current = none := by
      rw [hfire]
      simp [failStep, h1]
    cases hs : (timeoutStep now (replay cfg tr)).1 with
    | mk c2 cur2 lat2 hist2 nid2 =>
      rw [hs] at hnone
      simp only at hnone
      subst hnone
      exact ⟨by simp [startStep], by simp [startStep, isRunning]⟩
  · intro c
    refine ⟨rfl, ?_⟩
    intro hs
    exact ⟨by simp [clientOnTimeout, hs], by simp [clientOnTimeout, hs]⟩

/-- Concrete check of the timeout policy: a run started at time 0 under a
1000 ms ceiling is failed by the watchdog at time 2000, freeing the
engine, and the client safety-net constant is 300000 ms. -/
theorem timeout_frees_engine_check :
    (timeoutStep 2000 (replay ⟨1000, 5⟩ [Event.startReq 0 3])).1.current = none
    ∧ clientPollTimeoutMs = 300000 :=
  ⟨(timeout_frees_engine ⟨1000, 5⟩ [Event.startReq 0 3] 2000
      ⟨1, ScanStatus.RUNNING, 0, none, 3, 0, 0, "Scan started", none⟩
      (by decide) (by decide)).1,
   (timeout_frees_engine ⟨1000, 5⟩ [Event.startReq 0 3] 2000
      ⟨1, ScanStatus.RUNNING, 0, none, 3, 0, 0, "Scan started", none⟩
      (by decide) (by decide)).2.2.2.1⟩

/-- C9 counterexample: the claim that every setInterval-driven fetch of
the metrics or scan-status endpoints uses an interval in the 5000 to
10000 ms range is false — the Dashboard component of ClusterMonitoring.js
polls /api/scan/status every 1000 ms (source line 1028 and line 1086). -/
theorem poll_interval_claim_false :
    (⟨"ClusterMonitoring.Dashboard", "/api/scan/status", 1000⟩ : PollLoop) ∈ pollLoops
    ∧ ¬ (5000 ≤ (1000 : Nat))
    ∧ ¬ (∀ l ∈ pollLoops, 5000 ≤ l.intervalMs ∧ l.intervalMs ≤ 10000) := by
  decide

/-- C9 amended: every setInterval-driven fetch of /cluster/metrics or
/resources/metrics uses a fixed interval within 5000 to 10000 ms, but
the /api/scan/status polling loops run at 1000 ms (two loops) or 5000 ms
(one loop); every polling loop lies within 1000 to 10000 ms. -/
theorem poll_intervals_amended :
    (∀ l ∈ pollLoops,
        (l.endpoint = "/api/cluster/metrics" ∨ l.endpoint = "/api/resources/metrics") →
          5000 ≤ l.intervalMs ∧ l.intervalMs ≤ 10000)
    ∧ (∀ l ∈ pollLoops, l.endpoint = "/api/scan/status" →
        l.intervalMs = 1000 ∨ l.intervalMs = 5000)
    ∧ (∀ l ∈ pollLoops, 1000 ≤ l.intervalMs ∧ l.intervalMs ≤ 10000) := by
  decide
